import Mathlib

/-!
Verification development for the conversation streaming / turn-reconciliation
engine and the clarification session machine of the GymPlusCoffee dashboard.

JavaScript strings are modelled as `List Char` (named `Str`); JavaScript
objects/records as association lists; machine time (ms since epoch, the result
of `Date.getTime()`) as `Int`.  Fallible or effectful paths are modelled with
explicit sum types.  All definitions are executable.
-/

set_option maxRecDepth 10000

namespace GPC

/-- JavaScript strings, modelled as their character sequences. -/
abbrev Str := List Char

/-- Association lists modelling plain JS objects used as string maps.
`setKey` models the spread-update `{...m, [k]: v}`: it overwrites an existing
binding in place or appends a new one (JS insertion order). -/
def setKey {β : Type} (m : List (String × β)) (k : String) (v : β) : List (String × β) :=
  match m with
  | [] => [(k, v)]
  | (k', v') :: rest => if k' = k then (k, v) :: rest else (k', v') :: setKey rest k v

/-- Key lookup in a JS-object model. -/
def getKey {β : Type} (m : List (String × β)) (k : String) : Option β :=
  match m with
  | [] => none
  | (k', v') :: rest => if k' = k then some v' else getKey rest k

/-- The key set of a JS-object model (`Object.keys`, insertion order). -/
def keysOf {β : Type} (m : List (String × β)) : List String := m.map Prod.fst

/-! ### Clarification data model (src/frontend/src/types/clarifications.ts) -/

/-- `SelectorMetadata` from clarifications.ts; `kind` is one of
`single_select`, `multi_select`, `none` (kept as the raw string literal). -/
structure SelectorMetadata where
  kind : String
deriving Repr, DecidableEq

/-- `ClarificationSuggestion` from clarifications.ts.  `options`,
`context_tags` and `reason` carry no logic used by the claims and are kept as
raw payloads. -/
structure ClarificationSuggestion where
  question_id : String
  clarification_question : String
  selector : SelectorMetadata
  defaults_applied : List (String × String)
deriving Repr, DecidableEq

/-- `ClarificationSessionState` from clarifications.ts.  `status` is one of
the string literals `pending` / `ready` exactly as in the source. -/
structure ClarificationSessionState where
  session_id : String
  original_query : String
  auto_applied : List (String × String)
  answers : List (String × List String)
  pending : List ClarificationSuggestion
  matched_question_ids : List String
  resolved_context : List (String × String)
  status : String
deriving Repr, DecidableEq

/-! ### clarificationService.ts -/

/-- The compile-time flag at the top of clarificationService.ts (and its twin
constant in Dashboard.tsx): `const CLARIFIERS_ENABLED = false;`. -/
def CLARIFIERS_ENABLED : Bool := false

/-- `` `local-${Date.now()}` `` : the locally generated session id; `now` is
the current clock value. -/
def localSessionId (now : Nat) : String := "local-" ++ toString now

/-- `createEmptySessionState` from clarificationService.ts.  `updated_at` is a
wall-clock string with no logic and is not tracked. -/
def createEmptySessionState (now : Nat) (sessionId : Option String)
    (userQuery : Option String) : ClarificationSessionState :=
  { session_id := sessionId.getD (localSessionId now)
    original_query := userQuery.getD ""
    auto_applied := []
    answers := []
    pending := []
    matched_question_ids := []
    resolved_context := []
    status := "ready" }

/-- Outcome of a clarification-service call: either a locally constructed
state returned without any network activity, or an HTTP POST to the given
endpoint path (whose response would be parsed as a session snapshot). -/
inductive ServiceOutcome where
  | localResult (state : ClarificationSessionState)
  | networkRequest (endpoint : String)
deriving Repr, DecidableEq

/-- Request body of `suggestClarifications` (the fields the service reads). -/
structure ClarificationRequest where
  session_id : Option String
  user_query : Option String
deriving Repr, DecidableEq

/-- `suggestClarifications` from clarificationService.ts: with
`CLARIFIERS_ENABLED = false` it short-circuits to a local empty session and
never touches the network. -/
def suggestClarifications (now : Nat) (request : ClarificationRequest) : ServiceOutcome :=
  if CLARIFIERS_ENABLED = false then
    .localResult (createEmptySessionState now request.session_id request.user_query)
  else
    .networkRequest "/clarifications/suggest"

/-- `respondClarifications` from clarificationService.ts (same structure; the
local fallback passes only the session id through). -/
def respondClarifications (now : Nat) (session_id : Option String) : ServiceOutcome :=
  if CLARIFIERS_ENABLED = false then
    .localResult (createEmptySessionState now session_id none)
  else
    .networkRequest "/clarifications/respond"

/-! ### Dashboard.tsx clarification state machine -/

/-- `RawClarificationState` in Dashboard.tsx: a server snapshot whose fields
may individually be absent (the `??`/`Array.isArray` guards in
`normalizeClarificationState` handle exactly these).  In the typed model every
present `pending`/`suggestions` entry is a genuine suggestion, so the source's
`rawPending.filter(Boolean)` is the identity on the present list. -/
structure RawClarificationState where
  session_id : Option String
  original_query : String
  auto_applied : Option (List (String × String))
  answers : Option (List (String × List String))
  pending : Option (List ClarificationSuggestion)
  suggestions : Option (List ClarificationSuggestion)
  matched_question_ids : Option (List String)
  resolved_context : Option (List (String × String))
  status : Option String
  evaluated_at : Option String
deriving Repr, DecidableEq

/-- `normalizeClarificationState` from Dashboard.tsx (lines 477-506). -/
def normalizeClarificationState (now : Nat) (state : RawClarificationState) :
    ClarificationSessionState :=
  let rawPending :=
    match state.pending with
    | some p => p
    | none => state.suggestions.getD []
  let pending := rawPending
  let autoApplied := state.auto_applied.getD []
  let resolvedContext := state.resolved_context.getD []
  let answers := state.answers.getD []
  let matchedIds := state.matched_question_ids.getD []
  let status := state.status.getD (if pending.length > 0 then "pending" else "ready")
  let sessionId := (state.session_id.orElse fun _ => state.evaluated_at).getD (localSessionId now)
  { session_id := sessionId
    original_query := state.original_query
    auto_applied := autoApplied
    answers := answers
    pending := pending
    matched_question_ids := matchedIds
    resolved_context := resolvedContext
    status := status }

/-- `createEmptyClarificationState` from Dashboard.tsx (lines 516-528). -/
def createEmptyClarificationState (now : Nat) (query : String) : ClarificationSessionState :=
  { session_id := localSessionId now
    original_query := query
    auto_applied := []
    answers := []
    pending := []
    matched_question_ids := []
    resolved_context := []
    status := "ready" }

/-- `values.join(', ')`. -/
def joinComma (values : List String) : String := String.intercalate ", " values

/-- `advanceLocalClarification` from Dashboard.tsx (lines 907-945): advances
the local session past the active (head) question.  `queue` is the component's
`clarificationQueue` (mirroring `state.pending`) and `active` its head.
Returns the updated session state together with the next queue. -/
def advanceLocalClarification (state : ClarificationSessionState)
    (queue : List ClarificationSuggestion) (active : ClarificationSuggestion)
    (selectedValues : List String) :
    ClarificationSessionState × List ClarificationSuggestion :=
  let nextQueue := queue.drop 1
  let resolvedValue :=
    if selectedValues.length > 0 then joinComma selectedValues else "defaults accepted"
  let updatedState : ClarificationSessionState :=
    { state with
      pending := nextQueue
      resolved_context := setKey state.resolved_context active.question_id resolvedValue
      answers := setKey state.answers active.question_id selectedValues
      status := if nextQueue.length > 0 then "pending" else "ready" }
  (updatedState, nextQueue)

/-- The local-session path of `handleAcceptDefaults` (Dashboard.tsx lines
1053-1069): take the head question's `defaults_applied` values
(`Object.values`, insertion order) and advance via
`advanceLocalClarification`; with no active question the guard returns with
nothing changed. -/
def handleAcceptDefaultsLocal (state : ClarificationSessionState)
    (queue : List ClarificationSuggestion) :
    ClarificationSessionState × List ClarificationSuggestion :=
  match queue with
  | [] => (state, queue)
  | active :: _ =>
      let defaults := active.defaults_applied.map Prod.snd
      advanceLocalClarification state queue active defaults

/-- The local-session path of `handleClarificationSubmit` (Dashboard.tsx
lines 947-984): a selector kind other than `none` requires at least one
selected value; submission advances via `advanceLocalClarification`. -/
inductive SubmitOutcome where
  | advanced (state : ClarificationSessionState) (queue : List ClarificationSuggestion)
  | needsSelection
  | noActive
deriving Repr, DecidableEq

/-- See `SubmitOutcome`. -/
def handleClarificationSubmitLocal (state : ClarificationSessionState)
    (queue : List ClarificationSuggestion) (selected : List String) : SubmitOutcome :=
  match queue with
  | [] => .noActive
  | active :: _ =>
      let requiresInteraction := active.selector.kind ≠ "none"
      if requiresInteraction ∧ selected.length = 0 then .needsSelection
      else
        let vals := if requiresInteraction then selected else []
        let (st, q) := advanceLocalClarification state queue active vals
        .advanced st q

/-- The clarification branch of `handleChatSubmit` (Dashboard.tsx lines
871-899).  With `CLARIFIERS_ENABLED = false` the submit immediately starts
streaming with a fresh empty clarification state; otherwise it defers to
`evaluateClarifications`. -/
inductive ChatSubmitAction where
  | rejectedEmpty
  | startStreamingNow (query : String) (state : ClarificationSessionState)
  | deferToEvaluate (query : String)
deriving Repr, DecidableEq

/-- See `ChatSubmitAction`. -/
def handleChatSubmitClarification (now : Nat) (streamingQuery : String) : ChatSubmitAction :=
  if streamingQuery = "" then .rejectedEmpty
  else if CLARIFIERS_ENABLED = false then
    .startStreamingNow streamingQuery (createEmptyClarificationState now streamingQuery)
  else .deferToEvaluate streamingQuery

/-- The two spec invariants of a clarification session (spec §3):
`status = ready ⇔ pending = []`, and every key of `autoApplied` appears in
`resolvedContext`. -/
def SessionInvariant (s : ClarificationSessionState) : Prop :=
  (s.status = "ready" ↔ s.pending = []) ∧
  ∀ k, k ∈ keysOf s.auto_applied → k ∈ keysOf s.resolved_context

instance (s : ClarificationSessionState) : Decidable (SessionInvariant s) := by
  unfold SessionInvariant
  exact inferInstance

/-! ### Stream transport (src/unnamed/part_007, `APIStreamingService`)

The wire layer is modelled at the decoded-text level (`TextDecoder` with
`stream: true` guarantees incremental byte decoding concatenates to the full
text); JS per-line strings are `Str`.  `JSON.parse` is an external builtin and
is kept as a parameter of the line pipeline.  The generated event `id`
(`Date.now() + random`) and IS0-8601 `timestamp` strings are presentation
fields no claim references and are not tracked by the transport model. -/

/-- `STREAM_TIMEOUT_MS = 10 * 60 * 1000` from part_007. -/
def STREAM_TIMEOUT_MS : Int := 10 * 60 * 1000

/-- The JS `\s` / `trim()` whitespace set (ECMA-262 WhiteSpace and
LineTerminator code points). -/
def jsWhitespace (c : Char) : Bool :=
  c.val = 9 ∨ c.val = 10 ∨ c.val = 11 ∨ c.val = 12 ∨ c.val = 13 ∨ c.val = 32 ∨
  c.val = 160 ∨ c.val = 0x1680 ∨ (0x2000 ≤ c.val ∧ c.val ≤ 0x200A) ∨
  c.val = 0x2028 ∨ c.val = 0x2029 ∨ c.val = 0x202F ∨ c.val = 0x205F ∨
  c.val = 0x3000 ∨ c.val = 0xFEFF

/-- JS `String.prototype.trim`. -/
def wsTrim (s : Str) : Str :=
  ((s.dropWhile jsWhitespace).reverse.dropWhile jsWhitespace).reverse

/-- `startsWithL pat s` models `s.startsWith(pat)`. -/
def startsWithL : Str → Str → Bool
  | [], _ => true
  | _ :: _, [] => false
  | p :: ps, c :: cs => if p = c then startsWithL ps cs else false

/-- `buffer.split("\n")` (single-character separator, trailing empty segment
kept, `[""]` on the empty string). -/
def splitNl : Str → List Str
  | [] => [[]]
  | c :: rest =>
    if c = '\n' then [] :: splitNl rest
    else
      match splitNl rest with
      | [] => [[c]]
      | l :: ls => (c :: l) :: ls

/-- One iteration of the read loop's buffering (part_007 lines 147-149):
`buffer += chunk; lines = buffer.split("\n"); buffer = lines.pop()`.
The state is (complete lines emitted so far, pending partial line). -/
def feedChunk (acc : List Str × Str) (chunk : Str) : List Str × Str :=
  let parts := splitNl (acc.2 ++ chunk)
  (acc.1 ++ parts.dropLast, parts.getLastD [])

/-- Run the buffering loop over a whole chunk sequence. -/
def feedChunks (chunks : List Str) : List Str × Str := chunks.foldl feedChunk ([], [])

/-- The complete lines a chunked stream yields; the trailing partial line left
in the buffer at end-of-stream is never processed (the source loop ends
without flushing it). -/
def completeLines (chunks : List Str) : List Str := (feedChunks chunks).1

/-- Per-line dispatch of the read loop (part_007 lines 151-163): blank lines
and `event:` prefix lines are skipped, `data:` lines are sliced, trimmed and
JSON-parsed (`parseData` stands for `JSON.parse`; a `none` result models a
parse error, which is logged and skipped), anything else is ignored. -/
def processLine {α : Type} (parseData : Str → Option α) (line : Str) : Option α :=
  if wsTrim line = [] then none
  else if startsWithL "event:".toList line then none
  else if startsWithL "data:".toList line then
    let dataContent := wsTrim (line.drop 5)
    if dataContent = [] then none else parseData dataContent
  else none

/-- The sequence of parsed event records a chunked stream yields. -/
def parsedRecords {α : Type} (parseData : Str → Option α) (chunks : List Str) : List α :=
  (completeLines chunks).filterMap (processLine parseData)

/-- The fields of a parsed stream record that `APIStreamingService` reads
(interface `StreamEventData`; the duck-typed bag also carries presenter fields
used by StreamingConversation.tsx).  `details_has_text = some b` models a
`details` object that owns a `has_text` property with value `b`. -/
structure StreamEventData where
  status : Option String := none
  type : Option String := none
  user_message : Option String := none
  full_content : Option String := none
  response : Option String := none
  session_id : Option String := none
  display : Option String := none
  details_has_text : Option Bool := none
  tool_name : Option String := none
  todo_content : Option String := none
  input_summary : Option String := none
  result_summary : Option String := none
deriving Repr, DecidableEq

/-- JS truthiness of an optional string field (absent or empty is falsy). -/
def truthyS : Option String → Bool
  | none => false
  | some s => s ≠ ""

/-- The record filters of part_007 lines 166-199: echo `user_message`
records, the `completed` sentinel, non-assistant records carrying a nonempty
`user_message`, and textless `assistant_message` records are dropped before
reaching `onEvent`. -/
def shouldSkipRecord (d : StreamEventData) : Bool :=
  if d.type = some "user_message" then true
  else if d.type = some "completed" then true
  else if truthyS d.user_message ∧ d.type ≠ some "assistant_message" then true
  else if d.type = some "assistant_message" ∧ d.details_has_text = some false then true
  else false

/-- The four event kinds of interface `StreamEvent`. -/
inductive EvType where
  | connection
  | log
  | message
  | finalResponse
deriving Repr, DecidableEq

/-- `determineEventType` from part_007 lines 278-297. -/
def determineEventType (d : StreamEventData) : EvType :=
  if d.status = some "connected" then .connection
  else if truthyS d.type then
    if d.type = some "assistant_message" ∧ truthyS d.full_content then .message else .log
  else if (truthyS d.full_content ∨ truthyS d.response) ∧ truthyS d.session_id then .finalResponse
  else if truthyS d.full_content then .message
  else .log

/-- An event as handed to `onEvent` (presentation `id`/`timestamp`/`display`
strings omitted, see the section comment). -/
structure EmittedEvent where
  type : EvType
  data : StreamEventData
deriving Repr, DecidableEq

/-- The mutable values the record loop updates (part_007 lines 137-139 and
the service field `currentSessionId`). -/
structure StreamRunState where
  finalResponse : String
  capturedSessionId : Option String
  currentSessionId : Option String
deriving Repr, DecidableEq

/-- Processing of one parsed record (part_007 lines 166-249): apply the skip
filters, classify, capture the final response and session id (note the
session id is written to the service state here, mid-run), and emit. -/
def processRecord (st : StreamRunState) (d : StreamEventData) :
    StreamRunState × Option EmittedEvent :=
  if shouldSkipRecord d then (st, none)
  else
    let ty := determineEventType d
    let st1 :=
      if truthyS d.full_content ∧ ty = .message then
        { st with finalResponse := d.full_content.getD "" }
      else st
    let st2 :=
      if truthyS d.session_id then
        { st1 with capturedSessionId := d.session_id, currentSessionId := d.session_id }
      else st1
    let st3 :=
      if truthyS d.response ∧ truthyS d.session_id then
        { st2 with
          finalResponse := d.response.getD ""
          capturedSessionId := d.session_id
          currentSessionId := d.session_id }
      else st2
    (st3, some ⟨ty, d⟩)

/-- How a run terminates: clean end of stream, or an exception thrown out of
the fetch/read loop carrying `error.name` (abortion of the request by
`AbortController` rejects with name `AbortError`). -/
inductive RunEnding where
  | endOfStream
  | failure (errName : String)
deriving Repr, DecidableEq

/-- `error.name` of a request aborted via `AbortController.abort()`. -/
def abortErrorName : String := "AbortError"

/-- The calls a run makes to its three callbacks. -/
structure RunCallbacks where
  emitted : List EmittedEvent
  completedWith : Option (String × Option String)
  erroredWith : Option String
deriving Repr, DecidableEq

/-- One record-loop iteration: process the record and append the emitted
event (if any) to the `onEvent` trace. -/
def runStep (acc : StreamRunState × List EmittedEvent) (d : StreamEventData) :
    StreamRunState × List EmittedEvent :=
  let (st, ev) := processRecord acc.1 d
  (st, acc.2 ++ ev.toList)

/-- A whole `streamQuery` run over the records parsed before the run ended
(part_007 lines 141-275): records are folded through `processRecord`; a clean
end invokes `onComplete(finalResponse, capturedSessionId)`; an exception whose
name is `AbortError` is swallowed silently (lines 262-265), any other error
reaches `onError`.  Returns the final run state (whose `currentSessionId` is
the service's stored session id) and the callback record. -/
def runStream (sid0 : Option String) (records : List StreamEventData)
    (ending : RunEnding) : StreamRunState × RunCallbacks :=
  let init : StreamRunState :=
    { finalResponse := "", capturedSessionId := none, currentSessionId := sid0 }
  let step := records.foldl runStep (init, [])
  match ending with
  | .endOfStream =>
      (step.1,
       { emitted := step.2
         completedWith := some (step.1.finalResponse, step.1.capturedSessionId)
         erroredWith := none })
  | .failure n =>
      (step.1,
       { emitted := step.2
         completedWith := none
         erroredWith := if n = abortErrorName then none else some n })

/-- A run with arrival times: `items` are records with the wall-clock ms at
which they arrived, `endTime` the wall-clock ms at which the stream would
end. -/
structure TimedRun where
  items : List (Int × StreamEventData)
  endTime : Int
deriving Repr, DecidableEq

/-- The run exceeds the transport's fixed wall-clock ceiling. -/
def exceedsTimeout (tr : TimedRun) : Bool := STREAM_TIMEOUT_MS ≤ tr.endTime

/-- A timed `streamQuery` run: when the ceiling is hit, the `setTimeout`
handler (part_007 lines 89-94) calls `controller.abort()`, so the records
arriving before the ceiling are processed and the read loop then rejects with
an `AbortError`; otherwise the stream ends cleanly. -/
def runTimed (sid0 : Option String) (tr : TimedRun) : StreamRunState × RunCallbacks :=
  if exceedsTimeout tr then
    runStream sid0
      ((tr.items.filter fun it => it.1 < STREAM_TIMEOUT_MS).map Prod.snd)
      (.failure abortErrorName)
  else
    runStream sid0 (tr.items.map Prod.snd) .endOfStream

/-- The service's own mutable fields (part_007 lines 62-64). -/
structure ServiceState where
  controllerActive : Bool
  timerActive : Bool
  currentSessionId : Option String
deriving Repr, DecidableEq

/-- `abort()` from part_007 lines 315-324: aborts the controller and clears
the timeout; `currentSessionId` is not touched. -/
def abortService (s : ServiceState) : ServiceState :=
  { controllerActive := false, timerActive := false, currentSessionId := s.currentSessionId }

/-! ### `stripJsonBlocks` (StreamingConversation.tsx lines 52-144)

Each `String.replace` with a regex is compiled to a hand-written anchored
matcher; all the regexes involved are deterministic (every lazy/greedy
quantifier has a unique viable extent, noted per matcher), so no general
backtracking engine is needed.  Matchers always consume at least one
character, hence the scanning drivers need `length + 1` fuel at most. -/

/-- The apostrophe character (U+0027). -/
def apostropheChar : Char := Char.ofNat 39

/-- The backtick character (U+0060). -/
def backtickChar : Char := Char.ofNat 96

/-- Case-insensitive prefix test (ASCII case folding, as JS `/i`). -/
def startsWithCI : Str → Str → Bool
  | [], _ => true
  | _ :: _, [] => false
  | p :: ps, c :: cs => if Char.toLower p = Char.toLower c then startsWithCI ps cs else false

/-- Consume a literal, case-insensitively. -/
def litCI (pat : Str) (s : Str) : Option Str :=
  if startsWithCI pat s then some (s.drop pat.length) else none

/-- Consume a literal, exactly. -/
def litEx (pat : Str) (s : Str) : Option Str :=
  if startsWithL pat s then some (s.drop pat.length) else none

/-- Optionally consume one exact character (`c?` in a regex). -/
def optCh (c : Char) (s : Str) : Str :=
  match s with
  | c' :: rest => if c' = c then rest else s
  | [] => s

/-- Optionally consume one character, case-insensitively. -/
def optChCI (c : Char) (s : Str) : Str :=
  match s with
  | c' :: rest => if Char.toLower c' = Char.toLower c then rest else s
  | [] => s

/-- Optionally consume one of the alternatives (tried in regex order),
case-insensitively. -/
def optAltCI (alts : List Str) (s : Str) : Str :=
  match alts.find? (fun p => startsWithCI p s) with
  | some p => s.drop p.length
  | none => s

/-- Greedy `\s*`. -/
def wsStar (s : Str) : Str := s.dropWhile jsWhitespace

/-- JS `String.replace` with a global regex whose matchers always consume at
least one character: at each position try the anchored matcher `m`; on a
match emit the replacement and continue after the matched text (JS never
rescans a replacement), otherwise emit the character and move on.  `fuel`
bounds the number of steps; `length + 1` always suffices. -/
def jsReplaceG (m : Str → Option (Str × Str)) : Nat → Str → Str
  | 0, s => s
  | _, [] => []
  | Nat.succ fuel, c :: rest =>
    match m (c :: rest) with
    | some (rep, rest') => rep ++ jsReplaceG m fuel rest'
    | none => c :: jsReplaceG m fuel rest

/-- Whether the text consumed by a matcher (which returned suffix `rest'` of
`s`) ends with a newline — this decides whether the next position is a line
start for `^` in a multiline regex. -/
def consumedEndsNl (s rest' : Str) : Bool :=
  match (s.take (s.length - rest'.length)).getLast? with
  | some c => c = '\n'
  | none => false

/-- Driver for multiline (`/gm`) regexes anchored at `^` that replace by the
empty string: the anchored matcher `m` is attempted at every line-start
position. -/
def linePass (m : Str → Option Str) : Nat → Bool → Str → Str
  | 0, _, s => s
  | _, _, [] => []
  | Nat.succ fuel, atStart, c :: rest =>
    if atStart then
      match m (c :: rest) with
      | some rest' => linePass m fuel (consumedEndsNl (c :: rest) rest') rest'
      | none => c :: linePass m fuel (c = '\n') rest
    else c :: linePass m fuel (c = '\n') rest

/-- Split a string at its last newline: `b = before ++ ('\n' :: tail)`,
returning `(before, '\n' :: tail)`. -/
def lastNlSplit : Str → Option (Str × Str)
  | [] => none
  | c :: rest =>
    match lastNlSplit rest with
    | some (pre, post) => some (c :: pre, post)
    | none => if c = '\n' then some ([], c :: rest) else none

/-- `/Here'?s? (?:the |a )?structured (?:JSON )?response.*?:?\s*/gi`.
The lazy `.*?` always matches empty because everything after it is optional;
the optional pieces never need backtracking (each alternative's first
character differs from what follows on the skip path). -/
def matchIntro1 (s : Str) : Option (Str × Str) := do
  let s ← litCI "Here".toList s
  let s := optCh apostropheChar s
  let s := optChCI 's' s
  let s ← litEx " ".toList s
  let s := optAltCI ["the ".toList, "a ".toList] s
  let s ← litCI "structured ".toList s
  let s := optAltCI ["JSON ".toList] s
  let s ← litCI "response".toList s
  let s := optCh ':' s
  pure ([], wsStar s)

/-- `/Based on my analysis, here'?s? a structured response.*?:?\s*/gi`. -/
def matchIntro2 (s : Str) : Option (Str × Str) := do
  let s ← litCI "Based on my analysis, here".toList s
  let s := optCh apostropheChar s
  let s := optChCI 's' s
  let s ← litCI " a structured response".toList s
  let s := optCh ':' s
  pure ([], wsStar s)

/-- `/Now let me prepare a structured response.*?:?\s*/gi`. -/
def matchIntro3 (s : Str) : Option (Str × Str) := do
  let s ← litCI "Now let me prepare a structured response".toList s
  let s := optCh ':' s
  pure ([], wsStar s)

/-- The lazy `.*?` before a required `\.`: consume up to and through the
nearest dot on the current line (`.` does not match newlines). -/
def lazyThroughDot : Str → Option Str
  | [] => none
  | c :: rest =>
    if c = '.' then some rest
    else if c = '\n' then none
    else lazyThroughDot rest

/-- `/Based on my analysis, I can now provide a structured response.*?\.\s*/gi`. -/
def matchIntro4 (s : Str) : Option (Str × Str) := do
  let s ← litCI "Based on my analysis, I can now provide a structured response".toList s
  let s ← lazyThroughDot s
  pure ([], wsStar s)

/-- ``/```json\s*/gi``. -/
def matchFenceJson (s : Str) : Option (Str × Str) := do
  let s ← litCI ([backtickChar, backtickChar, backtickChar] ++ "json".toList) s
  pure ([], wsStar s)

/-- ``/```\s*/g``. -/
def matchFence (s : Str) : Option (Str × Str) := do
  let s ← litEx [backtickChar, backtickChar, backtickChar] s
  pure ([], wsStar s)

/-- `/^\s*json\s*$/gm` (no `i` flag): at a line start, the maximal whitespace
run (which may span lines, `\s` matches newlines), the literal `json`, then a
whitespace run that must stop right before a newline or at the end of the
string — the greedy `\s*` backtracks to just before the run's last
newline. -/
def matchJsonLine (s : Str) : Option Str := do
  let r1 := s.dropWhile jsWhitespace
  let r2 ← litEx "json".toList r1
  let b := r2.takeWhile jsWhitespace
  let r3 := r2.dropWhile jsWhitespace
  if r3 = [] then pure r3
  else
    match lastNlSplit b with
    | some (_, post) => pure (post ++ r3)
    | none => none

/-- JS `indexOf(ch, from)` with its `-1` convention. -/
def jsIndexOfFrom (c : Char) (s : Str) (start : Nat) : Int :=
  match (s.drop start).findIdx? (fun x => x = c) with
  | some k => ((start + k : Nat) : Int)
  | none => -1

/-- The inner brace scan of `stripJsonBlocks` (lines 74-107): walk from
`startIdx` tracking brace depth, string quoting and escapes; returns `i + 1`
for the index `i` whose closing brace/bracket brings the depth to zero, or
none when the loop runs off the end (then `endIdx` stays `startIdx` in the
source and the `endIdx > startIdx` test fails). -/
def braceScanGo : Str → Int → Bool → Bool → Nat → Option Nat
  | [], _, _, _, _ => none
  | c :: rest, braceCount, inString, escaped, i =>
    if escaped then braceScanGo rest braceCount inString false (i + 1)
    else if c = '\\' then braceScanGo rest braceCount inString true (i + 1)
    else if c = '"' then braceScanGo rest braceCount (!inString) escaped (i + 1)
    else if ¬ inString then
      let bc1 := if c = '{' ∨ c = '[' then braceCount + 1 else braceCount
      if c = '}' ∨ c = ']' then
        let bc2 := bc1 - 1
        if bc2 = 0 then some (i + 1) else braceScanGo rest bc2 inString escaped (i + 1)
      else braceScanGo rest bc1 inString escaped (i + 1)
    else braceScanGo rest braceCount inString escaped (i + 1)

/-- The `while (startIdx !== -1)` JSON-removal loop of `stripJsonBlocks`
(lines 66-120), state `(cleaned, startIdx)` exactly as in the source.  Each
iteration either removes a block (string strictly shrinks, `startIdx`
unchanged) or moves `startIdx` strictly right, so the lexicographic measure
`(length, length - startIdx)` bounds the iteration count and the supplied
fuel of `(length + 2)²` is never exhausted. -/
def jsonLoop : Nat → Str → Int → Str
  | 0, cleaned, _ => cleaned
  | Nat.succ fuel, cleaned, startIdx =>
    if startIdx = -1 then cleaned
    else
      let si := startIdx.toNat
      let nextQuote := jsIndexOfFrom '"' cleaned si
      let nextColon := jsIndexOfFrom ':' cleaned si
      if nextQuote > startIdx ∧ nextQuote < startIdx + 50 ∧ nextColon > nextQuote then
        match braceScanGo (cleaned.drop si) 0 false false si with
        | some endIdx => jsonLoop fuel (cleaned.take si ++ cleaned.drop endIdx) startIdx
        | none => jsonLoop fuel cleaned (jsIndexOfFrom '{' cleaned (si + 1))
      else jsonLoop fuel cleaned (jsIndexOfFrom '{' cleaned (si + 1))

/-- `/,\s*,+/g → ','` (line 124). -/
def matchCommaRun (s : Str) : Option (Str × Str) :=
  match s with
  | ',' :: rest =>
    let r1 := rest.dropWhile jsWhitespace
    let commas := r1.takeWhile (fun c => c = ',')
    if commas = [] then none else some (",".toList, r1.drop commas.length)
  | _ => none

/-- `/,\s*(?=[}\]])/g → ''` (line 125); the lookahead is not consumed. -/
def matchTrailingComma (s : Str) : Option (Str × Str) :=
  match s with
  | ',' :: rest =>
    match rest.dropWhile jsWhitespace with
    | c :: tail =>
      if c = '}' ∨ c = ']' then some ([], c :: tail) else none
    | [] => none
  | _ => none

/-- `/^\s*[,\]}\s]+/gm → ''` (line 126): at a line start, a maximal nonempty
run of characters from the class (which contains all of `\s`, so the
`\s*`/`[...]+` split is immaterial). -/
def matchOrphanRun (s : Str) : Option Str :=
  let cls := fun c => jsWhitespace c ∨ c = ',' ∨ c = ']' ∨ c = '}'
  let run := s.takeWhile cls
  if run = [] then none else some (s.dropWhile cls)

/-- `/\n{3,}/g → '\n\n'` (line 127). -/
def matchNl3 (s : Str) : Option (Str × Str) :=
  let nls := s.takeWhile (fun c => c = '\n')
  if 3 ≤ nls.length then some ("\n\n".toList, s.drop nls.length) else none

/-- `/^\s*\d+\.\s+/gm → ''` (line 134): at a line start, maximal whitespace,
at least one digit, a literal dot, then at least one whitespace character. -/
def matchNumberedItem (s : Str) : Option Str :=
  let r1 := s.dropWhile jsWhitespace
  let digits := r1.takeWhile Char.isDigit
  if digits = [] then none
  else
    match r1.drop digits.length with
    | '.' :: r2 =>
      let wsp := r2.takeWhile jsWhitespace
      if wsp = [] then none else some (r2.dropWhile jsWhitespace)
    | _ => none

/-- The transition phrases of line 135, in regex alternation order. -/
def joinPhrases15 : List Str :=
  ["Let me".toList, "Now let me".toList,
   "I".toList ++ [apostropheChar] ++ "ll".toList, "I will".toList,
   "First,".toList, "Next,".toList, "Then,".toList,
   "Now I".toList ++ [apostropheChar] ++ "ll".toList, "Now I will".toList]

/-- `/\.\s*\n+\s*(Let me|…)/g → '. $1'` (line 135): a dot, a whitespace run
containing at least one newline (the only constraint the `\s*\n+\s*` split
imposes), then one of the phrases (case-sensitive). -/
def matchDotJoin (s : Str) : Option (Str × Str) :=
  match s with
  | '.' :: rest =>
    let w := rest.takeWhile jsWhitespace
    if w.contains '\n' then
      let r1 := rest.drop w.length
      match joinPhrases15.find? (fun p => startsWithL p r1) with
      | some p => some ('.' :: ' ' :: p, r1.drop p.length)
      | none => none
    else none
  | _ => none

/-- The transition words of line 136, in regex alternation order. -/
def joinPhrases16 : List Str :=
  ["First,".toList, "Second,".toList, "Third,".toList,
   "Next,".toList, "Then,".toList, "Finally,".toList]

/-- `/\n+\s*(First,|…)/g → '. $1'` (line 136): `\n+\s*` jointly consumes the
maximal whitespace run that starts with a newline. -/
def matchNlJoin (s : Str) : Option (Str × Str) :=
  match s with
  | '\n' :: _ =>
    let w := s.takeWhile jsWhitespace
    let r1 := s.drop w.length
    match joinPhrases16.find? (fun p => startsWithL p r1) with
    | some p => some ('.' :: ' ' :: p, r1.drop p.length)
    | none => none
  | _ => none

/-- `/:\s*\n+\s*([A-Z])/g → '. $1'` (line 137). -/
def matchColonJoin (s : Str) : Option (Str × Str) :=
  match s with
  | ':' :: rest =>
    let w := rest.takeWhile jsWhitespace
    if w.contains '\n' then
      match rest.drop w.length with
      | c :: r2 => if 'A' ≤ c ∧ c ≤ 'Z' then some ('.' :: ' ' :: [c], r2) else none
      | [] => none
    else none
  | _ => none

/-- `/:\s*$/gm → '.'` (line 138): a colon followed by whitespace up to the
end of the string, or — backtracking the greedy `\s*` — up to just before the
last newline of the following whitespace run. -/
def matchColonEol (s : Str) : Option (Str × Str) :=
  match s with
  | ':' :: rest =>
    let w := rest.takeWhile jsWhitespace
    let r1 := rest.drop w.length
    if r1 = [] then some (".".toList, r1)
    else
      match lastNlSplit w with
      | some (_, post) => some (".".toList, post ++ r1)
      | none => none
  | _ => none

/-- `/\n\n+/g → ' '` (line 139). -/
def matchNl2 (s : Str) : Option (Str × Str) :=
  let nls := s.takeWhile (fun c => c = '\n')
  if 2 ≤ nls.length then some (" ".toList, s.drop nls.length) else none

/-- `/\s+/g → ' '` (line 140). -/
def matchWsRun (s : Str) : Option (Str × Str) :=
  let w := s.takeWhile jsWhitespace
  if w = [] then none else some (" ".toList, s.drop w.length)

/-- `stripJsonBlocks` from StreamingConversation.tsx lines 53-144, as the
composition of its replacement stages in source order. -/
def stripJsonBlocks (content : Str) : Str :=
  let c := jsReplaceG matchIntro1 (content.length + 1) content
  let c := jsReplaceG matchIntro2 (c.length + 1) c
  let c := jsReplaceG matchIntro3 (c.length + 1) c
  let c := jsReplaceG matchIntro4 (c.length + 1) c
  let c := jsReplaceG matchFenceJson (c.length + 1) c
  let c := jsReplaceG matchFence (c.length + 1) c
  let c := linePass matchJsonLine (c.length + 1) true c
  let c := jsonLoop ((c.length + 2) * (c.length + 2)) c (jsIndexOfFrom '{' c 0)
  let c := jsReplaceG matchCommaRun (c.length + 1) c
  let c := jsReplaceG matchTrailingComma (c.length + 1) c
  let c := linePass matchOrphanRun (c.length + 1) true c
  let c := jsReplaceG matchNl3 (c.length + 1) c
  let c := wsTrim c
  let c := linePass matchNumberedItem (c.length + 1) true c
  let c := jsReplaceG matchDotJoin (c.length + 1) c
  let c := jsReplaceG matchNlJoin (c.length + 1) c
  let c := jsReplaceG matchColonJoin (c.length + 1) c
  let c := jsReplaceG matchColonEol (c.length + 1) c
  let c := jsReplaceG matchNl2 (c.length + 1) c
  let c := jsReplaceG matchWsRun (c.length + 1) c
  wsTrim c

/-! ### Turn segmentation (StreamingConversation.tsx lines 587-615)

Event and message timestamps are `getTime()` values (ms since epoch), modelled
as `Int`; every modelled timestamp is a valid date (the `isNaN` guards of the
source never fire on the model). -/

/-- The per-event membership test of the `turnEvents` filter: `prevTs` /
`nextTs` are the previous / next user-message timestamps (`none` when that
message does not exist), `messageTimestamp` the anchor's timestamp,
`fallbackEnd` the `Date.now() + 1000000` bound used when no next user message
exists, and `t` the event's timestamp. -/
def turnMember (prevTs : Option Int) (messageTimestamp : Int) (nextTs : Option Int)
    (fallbackEnd : Int) (t : Int) : Bool :=
  let nextUserTimestamp := nextTs.getD fallbackEnd
  let eventStartTime := messageTimestamp - 1000
  let inRange : Bool := decide (eventStartTime ≤ t) && decide (t < nextUserTimestamp)
  match prevTs with
  | none => inRange
  | some prevUserTime =>
    if inRange then
      if t < messageTimestamp - 5000 then false
      else if t < messageTimestamp - 2000 ∧ prevUserTime < t then false
      else inRange
    else inRange

/-- Previous-anchor timestamp for the anchor at position `i` of the user
message timeline. -/
def anchorPrev (userTs : List Int) (i : Nat) : Option Int :=
  if i = 0 then none else userTs.get? (i - 1)

/-- Whether an event at time `t` belongs to the turn of the `i`-th user
message of the timeline `userTs`. -/
def memberOfTurn (userTs : List Int) (i : Nat) (fallbackEnd : Int) (t : Int) : Bool :=
  match userTs.get? i with
  | none => false
  | some mts => turnMember (anchorPrev userTs i) mts (userTs.get? (i + 1)) fallbackEnd t

/-- The event subset (by timestamp) the segmenter assigns to the `i`-th
turn. -/
def turnEventsAt (userTs : List Int) (i : Nat) (fallbackEnd : Int)
    (events : List Int) : List Int :=
  events.filter (memberOfTurn userTs i fallbackEnd)

/-! ### Turn presenter (StreamingConversation.tsx lines 180-287 and 556-705) -/

/-- Lowercase a JS string (ASCII folding; all inputs of interest are
ASCII). -/
def lowerStr (s : Str) : Str := s.map Char.toLower

/-- JS `String.prototype.includes`. -/
def containsSub (needle : Str) : Str → Bool
  | [] => needle.isEmpty
  | c :: rest => if startsWithL needle (c :: rest) then true else containsSub needle rest

/-- A `StreamEvent` as the component receives it.  The ISO timestamp string
is modelled by its `getTime()` value. -/
structure SEvent where
  id : String
  type : EvType
  timestamp : Int
  display : Option String
  data : StreamEventData
  full_content : Option String
deriving Repr, DecidableEq

/-- `isTodoLogEvent` from StreamingConversation.tsx lines 186-201. -/
def isTodoLogEvent (e : SEvent) : Bool :=
  let dataType : Str :=
    match e.data.type with
    | some s => lowerStr s.toList
    | none => []
  let toolNameIsTodoWrite : Bool :=
    match e.data.tool_name with
    | some tn => lowerStr tn.toList = "todowrite".toList
    | none => false
  if dataType = "todo_identified".toList then true
  else if dataType = "tool_use".toList ∧ toolNameIsTodoWrite = true then true
  else
    [e.display, e.data.display].any fun v =>
      match v with
      | some s => containsSub "todo".toList (lowerStr s.toList)
      | none => false

/-- Characters in the emoji block range `\u{1F300}-\u{1FAFF}` stripped by
`normalizeTodoDisplay`. -/
def isEmojiRange (c : Char) : Bool := 0x1F300 ≤ c.val ∧ c.val ≤ 0x1FAFF

/-- One `replace(/^\s*(alt|…)/i, "")` step: when, after the leading
whitespace run, one of the alternatives (in order, case-insensitively) is
present, drop the whitespace and the alternative; otherwise leave the string
unchanged. -/
def stripStartPhraseCI (phrases : List Str) (s : Str) : Str :=
  let rest := s.dropWhile jsWhitespace
  match phrases.find? (fun p => startsWithCI p rest) with
  | some p => rest.drop p.length
  | none => s

/-- `normalizeTodoDisplay` from StreamingConversation.tsx lines 203-213. -/
def normalizeTodoDisplay (value : Option String) : Str :=
  match value with
  | none => []
  | some v =>
    let s0 := v.toList.filter (fun c => ¬ isEmojiRange c)
    let s1 := stripStartPhraseCI ["todo update:".toList, "todo identified:".toList] s0
    let s2 := stripStartPhraseCI ["todo:".toList] s1
    let s3 := stripStartPhraseCI ["todo".toList] s2
    wsTrim s3

/-- The generic placeholder texts `extractTodoContent` skips. -/
def todoBlocklist : List Str :=
  ["managing task list".toList, "todo list update".toList, "todo update".toList]

/-- Candidate scan of `extractTodoContent` (lines 226-238). -/
def extractTodoGo : List (Option String) → Str
  | [] => []
  | c :: rest =>
    match c with
    | none => extractTodoGo rest
    | some s =>
      let cleaned := normalizeTodoDisplay (some s)
      if cleaned ≠ [] then
        if lowerStr cleaned ∈ todoBlocklist then extractTodoGo rest else cleaned
      else extractTodoGo rest

/-- `extractTodoContent` from StreamingConversation.tsx lines 215-239. -/
def extractTodoContent (e : SEvent) : Str :=
  extractTodoGo
    [e.data.todo_content, e.data.input_summary, e.data.result_summary,
     e.display, e.data.display, e.full_content]

/-- `NormalizedTurnEvent` (lines 180-184); `content` as a `Str`. -/
structure NormalizedTurnEvent where
  event : SEvent
  content : Str
  isTodo : Bool
deriving Repr, DecidableEq

/-- Timestamp key used by the comparator of the final `.sort`. -/
def nteTs (x : NormalizedTurnEvent) : Int := x.event.timestamp

/-- The collection loop of lines 626-657: walk the turn's events, pushing
assistant narration (unless it is the hidden final-predecessor) into the
first list and deduplicated todo items into the second.  `shouldHide` is the
truthiness of `shouldHideLastAssistant`; `seen` is `seenTodoContent`. -/
def collectNormalized (shouldHide : Bool) (hideId : Option String) :
    List SEvent → List Str → List NormalizedTurnEvent × List NormalizedTurnEvent
  | [], _ => ([], [])
  | e :: rest, seen =>
    if e.type = .message ∧ e.data.type = some "assistant_message" ∧
        truthyS e.full_content ∧ ¬ (shouldHide ∧ hideId = some e.id) then
      let (a, t) := collectNormalized shouldHide hideId rest seen
      (⟨e, (e.full_content.getD "").toList, false⟩ :: a, t)
    else if e.type = .log ∧ isTodoLogEvent e then
      let content := extractTodoContent e
      let key := lowerStr (wsTrim content)
      if content ≠ [] ∧ ¬ seen.contains key then
        let (a, t) := collectNormalized shouldHide hideId rest (key :: seen)
        (a, ⟨e, content, true⟩ :: t)
      else collectNormalized shouldHide hideId rest seen
    else collectNormalized shouldHide hideId rest seen

/-- Stable insertion used to model `Array.prototype.sort` (which is stable):
the new element goes after every element whose key is `≤` its own, so equal
keys keep their original relative order. -/
def insertAfterEq (x : NormalizedTurnEvent) :
    List NormalizedTurnEvent → List NormalizedTurnEvent
  | [] => [x]
  | y :: ys => if nteTs y ≤ nteTs x then y :: insertAfterEq x ys else x :: y :: ys

/-- `[...normalizedAssistant, ...normalizedTodos].sort((a, b) => ta - tb)`
(line 659): a stable sort by timestamp. -/
def jsStableSortByTs (l : List NormalizedTurnEvent) : List NormalizedTurnEvent :=
  l.foldl (fun acc x => insertAfterEq x acc) []

/-- The promotion step of lines 669-673: the first non-todo item, when not
already first, is spliced out and unshifted to the front. -/
def promoteFirstNonTodo (l : List NormalizedTurnEvent) : List NormalizedTurnEvent :=
  match l.findIdx? (fun x => ¬ x.isTodo) with
  | none => l
  | some 0 => l
  | some (Nat.succ i) =>
    match l.get? (i + 1) with
    | none => l
    | some x => x :: (l.take (i + 1) ++ l.drop (i + 2))

/-- `normalizedEvents` for one turn (lines 626-673): collect, sort stably by
timestamp, promote the first non-todo item. -/
def normalizedEvents (shouldHide : Bool) (hideId : Option String)
    (turn : List SEvent) : List NormalizedTurnEvent :=
  let (a, t) := collectNormalized shouldHide hideId turn []
  promoteFirstNonTodo (jsStableSortByTs (a ++ t))

/-- Modelled from the claim wording of C4 (spec §4.3 item ordering): all
non-todo narration items first in arrival order, then all todo items in
arrival order, then promotion of the first non-todo item.  This is the
*specified* ordering, to be compared with `normalizedEvents`. -/
def claimOrderedItems (shouldHide : Bool) (hideId : Option String)
    (turn : List SEvent) : List NormalizedTurnEvent :=
  let (a, t) := collectNormalized shouldHide hideId turn []
  promoteFirstNonTodo (a ++ t)

/-- Timestamp-ordered merge keeping left elements first on ties — the
amended ordering statement for C4. -/
def mergeByTs : List NormalizedTurnEvent → List NormalizedTurnEvent →
    List NormalizedTurnEvent
  | [], r => r
  | a :: l, [] => a :: l
  | a :: l, b :: r =>
    if nteTs a ≤ nteTs b then a :: mergeByTs l (b :: r)
    else b :: mergeByTs (a :: l) r

/-- `ConversationMessage` (StreamingConversation.tsx lines 29-34); `content`
carries no presenter logic and is omitted; the timestamp is its `getTime()`
value. -/
structure CMessage where
  id : String
  role : String
  timestamp : Int
deriving Repr, DecidableEq

/-- The last user message of the conversation (lines 242-251). -/
def lastUserMessage (msgs : List CMessage) : Option CMessage :=
  msgs.reverse.find? (fun m => m.role = "user")

/-- `currentTurnEvents` (lines 258-265): events at or after the last user
message's timestamp (all of them when no user message exists). -/
def currentTurnEvents (lastUserTs : Option Int) (events : List SEvent) : List SEvent :=
  match lastUserTs with
  | none => events
  | some cutoff => events.filter (fun e => cutoff ≤ e.timestamp)

/-- Index of the last element satisfying `p`. -/
def lastIdxWhere {α : Type} (p : α → Bool) (l : List α) : Option Nat :=
  (l.reverse.findIdx? p).map (fun k => l.length - 1 - k)

/-- `assistantMessageToHideId` (lines 268-287): from the last
`final_response` event walk backwards to the nearest assistant narration
event and return its id. -/
def assistantMessageToHideId (evs : List SEvent) : Option String :=
  match lastIdxWhere (fun e => e.type = .finalResponse) evs with
  | none => none
  | some i =>
    (((evs.take (i + 1)).reverse).find? fun e =>
        e.type = .message ∧ e.data.type = some "assistant_message" ∧
        truthyS e.full_content).map
      (fun e => e.id)

/-- Previous user message timestamp for the message at `idx` (lines
563-569). -/
def prevUserTs (msgs : List CMessage) (idx : Nat) : Option Int :=
  ((msgs.take idx).reverse.find? (fun m => m.role = "user")).map (fun m => m.timestamp)

/-- Next user message timestamp for the message at `idx` (lines 571-581). -/
def nextUserTs (msgs : List CMessage) (idx : Nat) : Option Int :=
  ((msgs.drop (idx + 1)).find? (fun m => m.role = "user")).map (fun m => m.timestamp)

/-- The `turnEvents` filter for the user message at `idx` (lines 587-615);
`fallbackEnd` is `Date.now() + 1000000`. -/
def turnEventsFor (msgs : List CMessage) (idx : Nat) (fallbackEnd : Int)
    (events : List SEvent) : List SEvent :=
  match msgs.get? idx with
  | none => []
  | some m =>
    events.filter fun e =>
      turnMember (prevUserTs msgs idx) m.timestamp (nextUserTs msgs idx)
        fallbackEnd e.timestamp

/-- The render model of one turn: the promoted primary item and the subtask
tail. -/
structure TurnRender where
  primary : NormalizedTurnEvent
  subtasks : List NormalizedTurnEvent
deriving Repr, DecidableEq

/-- The per-turn render computation of lines 556-693 for the user message at
`idx`: segment the events, decide the hidden final-predecessor (current turn
only), normalize, and return `primary`/`subtasks` — or nothing when the turn
has no events, no normalized items, or only sanitization-empty content. -/
def renderTurn (msgs : List CMessage) (events : List SEvent) (fallbackEnd : Int)
    (idx : Nat) : Option TurnRender :=
  match msgs.get? idx with
  | none => none
  | some m =>
    if m.role = "user" then
      let tEvents := turnEventsFor msgs idx fallbackEnd events
      if tEvents = [] then none
      else
        let lastU := lastUserMessage msgs
        let curEvents := currentTurnEvents (lastU.map (fun u => u.timestamp)) events
        let hideId := assistantMessageToHideId curEvents
        let isCurrent := lastU.map (fun u => u.id) = some m.id
        let shouldHide := isCurrent ∧ truthyS hideId
        let items := normalizedEvents shouldHide hideId tEvents
        match items with
        | [] => none
        | first :: subtasks =>
          let strippedFirst := wsTrim (stripJsonBlocks first.content)
          let hasValidSubtasks :=
            subtasks.any (fun t => wsTrim (stripJsonBlocks t.content) ≠ [])
          if strippedFirst = [] ∧ ¬ hasValidSubtasks then none
          else some ⟨first, subtasks⟩
    else none

/-- The subtasks actually rendered (lines 738-775): subtasks whose sanitized
content is nonempty. -/
def renderedSubtasks (r : TurnRender) : List NormalizedTurnEvent :=
  r.subtasks.filter (fun t => wsTrim (stripJsonBlocks t.content) ≠ [])

/-! ### Concrete instances used by witnesses and counterexamples -/

/-- A todo log event (`todo_identified`) at a given time. -/
def todoEventAt (i : String) (ts : Int) (c : String) : SEvent :=
  ⟨i, .log, ts, none, { type := some "todo_identified", todo_content := some c }, none⟩

/-- An assistant narration event at a given time. -/
def assistantEventAt (i : String) (ts : Int) (c : String) : SEvent :=
  ⟨i, .message, ts, none, { type := some "assistant_message" }, some c⟩

/-- A final-response event at a given time. -/
def finalEventAt (i : String) (ts : Int) : SEvent :=
  ⟨i, .finalResponse, ts, none, { response := some "done", session_id := some "sess" }, none⟩

/-- A turn interleaving two todo items and two narration items. -/
def sampleTurn : List SEvent :=
  [todoEventAt "t1" 1000 "check stock A", assistantEventAt "a1" 2000 "Step one",
   todoEventAt "t2" 3000 "check stock B", assistantEventAt "a2" 4000 "Step two"]

/-- A two-turn conversation: each turn ends with a final response and the
first turn carries two narration events before its final response. -/
def sampleMsgs : List CMessage := [⟨"u1", "user", 0⟩, ⟨"u2", "user", 60000⟩]

/-- The events of `sampleMsgs`'s two turns. -/
def sampleEvents : List SEvent :=
  [assistantEventAt "a0" 1000 "Checking inventory",
   assistantEventAt "a1" 2000 "Found results",
   finalEventAt "f1" 3000,
   assistantEventAt "a2" 61000 "More work",
   finalEventAt "f2" 62000]

/-- A two-narration turn whose second narration is the hidden
final-predecessor. -/
def suppressTurn : List SEvent :=
  [assistantEventAt "a3" 100 "Gather data", assistantEventAt "hidden" 200 "Almost done"]

/-- The promoted item of `suppressTurn` under suppression of `hidden`. -/
def suppressItem : NormalizedTurnEvent :=
  ⟨assistantEventAt "a3" 100 "Gather data", "Gather data".toList, false⟩

/-- A single-select clarification question with no applied defaults. -/
def sizeQuestion : ClarificationSuggestion :=
  ⟨"q-size", "Which size?", ⟨"single_select"⟩, []⟩

/-- A session whose head pending question is `sizeQuestion` and whose
auto-applied currency default already sits in the resolved context. -/
def hoodieSession : ClarificationSessionState :=
  ⟨"local-1", "reorder hoodies", [("currency", "EUR")], [], [sizeQuestion], [],
   [("currency", "EUR")], "pending"⟩

/-- A server snapshot claiming `ready` while a question is still pending. -/
def inconsistentSnapshot : RawClarificationState :=
  ⟨some "srv-1", "reorder hoodies", some [], some [], some [sizeQuestion], none,
   some [], some [], some "ready", none⟩

/-- A stream record carrying only a session identifier. -/
def sessionOnlyRecord : StreamEventData := { session_id := some "s2" }

/-- A stream record carrying no session identifier. -/
def noSessionRecord : StreamEventData :=
  { type := some "tool_use", display := some "Running query" }

/-! ## Helper lemmas -/

/-- `setKey` never loses keys. -/
theorem mem_keysOf_setKey {β : Type} {m : List (String × β)} {k : String}
    (k' : String) (v : β) (h : k ∈ keysOf m) : k ∈ keysOf (setKey m k' v) := by
  induction m with
  | nil => simp [keysOf] at h
  | cons p rest ih =>
    obtain ⟨k0, v0⟩ := p
    simp only [keysOf, List.map_cons, List.mem_cons] at h
    unfold setKey
    by_cases hk : k0 = k'
    · rw [if_pos hk]
      simp only [keysOf, List.map_cons, List.mem_cons]
      rcases h with h | h
      · exact Or.inl (h.trans hk)
      · exact Or.inr h
    · rw [if_neg hk]
      simp only [keysOf, List.map_cons, List.mem_cons]
      rcases h with h | h
      · exact Or.inl h
      · exact Or.inr (ih h)

/-- `setKey` stores the new binding. -/
theorem getKey_setKey_self {β : Type} (m : List (String × β)) (k : String) (v : β) :
    getKey (setKey m k v) k = some v := by
  induction m with
  | nil => simp [setKey, getKey]
  | cons p rest ih =>
    obtain ⟨k0, v0⟩ := p
    by_cases hk : k0 = k
    · subst hk
      simp [setKey, getKey]
    · simp [setKey, getKey, hk, ih]

/-- A `turnMember` hit lies in the basic candidate range. -/
theorem turnMember_bounds {p : Option Int} {mts : Int} {n : Option Int} {fb t : Int}
    (h : turnMember p mts n fb t = true) : mts - 1000 ≤ t ∧ t < n.getD fb := by
  unfold turnMember at h
  rcases p with _ | pv
  · simpa using h
  · split_ifs at h <;> simp_all

/-- Monotone timelines are monotone on `get?`. -/
theorem pairwise_le_get? {l : List Int} (hp : List.Pairwise (· ≤ ·) l) {i j : Nat}
    (hij : i < j) {x y : Int} (hx : l.get? i = some x) (hy : l.get? j = some y) :
    x ≤ y := by
  rw [List.get?_eq_some] at hx hy
  obtain ⟨hi, hx⟩ := hx
  obtain ⟨hj, hy⟩ := hy
  subst hx; subst hy
  exact List.pairwise_iff_get.mp hp ⟨i, hi⟩ ⟨j, hj⟩ hij

/-- `processRecord` leaves the stored session id alone when the record
carries no (truthy) session id. -/
theorem processRecord_preserves_sid {st : StreamRunState} {d : StreamEventData}
    (h : truthyS d.session_id = false) :
    (processRecord st d).1.currentSessionId = st.currentSessionId := by
  unfold processRecord
  by_cases hs : shouldSkipRecord d = true
  · simp [hs]
  · simp only [Bool.not_eq_true] at hs
    simp only [hs, h, Bool.false_eq_true, if_false, Bool.and_eq_true, and_false,
      decide_eq_true_eq, false_and]
    split <;> rfl

/-- The record fold leaves the stored session id alone when no record carries
a session id. -/
theorem foldl_runStep_preserves_sid {records : List StreamEventData}
    (h : ∀ d ∈ records, truthyS d.session_id = false)
    (acc : StreamRunState × List EmittedEvent) :
    (records.foldl runStep acc).1.currentSessionId = acc.1.currentSessionId := by
  induction records generalizing acc with
  | nil => rfl
  | cons d rest ih =>
    have hd : truthyS d.session_id = false := h d (by simp)
    have hrest : ∀ x ∈ rest, truthyS x.session_id = false :=
      fun x hx => h x (by simp [hx])
    rw [List.foldl_cons, ih hrest]
    show (processRecord acc.1 d).1.currentSessionId = acc.1.currentSessionId
    exact processRecord_preserves_sid hd

/-! ## Claim theorems -/

/-- C1 counterexample: a run that exceeds `STREAM_TIMEOUT_MS` ends with
`onError` never invoked — the claim that the failure is reported through
`onError` is false at this input. -/
theorem c1_timeout_silent_counterexample :
    exceedsTimeout ⟨[], STREAM_TIMEOUT_MS⟩ = true ∧
    (runTimed none ⟨[], STREAM_TIMEOUT_MS⟩).2.erroredWith = none := by decide

/-- C1 (amended): a run that exceeds the wall-clock ceiling is aborted, but
the resulting `AbortError` is swallowed exactly like a cancellation: neither
`onError` nor `onComplete` is invoked for it. -/
theorem c1_timeout_aborts_silently (sid : Option String) (tr : TimedRun)
    (h : exceedsTimeout tr = true) :
    (runTimed sid tr).2.erroredWith = none ∧ (runTimed sid tr).2.completedWith = none := by
  simp [runTimed, h, runStream]

/-- C1 witness. -/
theorem c1_timeout_aborts_silently_witness :
    exceedsTimeout ⟨[], STREAM_TIMEOUT_MS⟩ = true ∧
    (runTimed (some "s0") ⟨[], STREAM_TIMEOUT_MS⟩).2.erroredWith = none ∧
    (runTimed (some "s0") ⟨[], STREAM_TIMEOUT_MS⟩).2.completedWith = none :=
  ⟨by decide, (c1_timeout_aborts_silently (some "s0") ⟨[], STREAM_TIMEOUT_MS⟩ (by decide)).1,
   (c1_timeout_aborts_silently (some "s0") ⟨[], STREAM_TIMEOUT_MS⟩ (by decide)).2⟩

/-- C2 counterexample: with anchors at 0 and 10000, the event at 9500 is
assigned to both turns — the claim that no event appears in the turn event
sets of two distinct anchors is false at this input. -/
theorem c2_event_in_two_turns_counterexample :
    turnEventsAt [0, 10000] 0 1020000 [9500] = [9500] ∧
    turnEventsAt [0, 10000] 1 1020000 [9500] = [9500] := by decide

/-- C2 (amended): the segmentation is a pure function (hence deterministic),
and an event assigned to two distinct turns of a chronologically ordered
anchor timeline necessarily lies in the one-second tolerance window right
before the later anchor; outside these windows assignment is unique. -/
theorem c2_shared_event_in_tolerance_window (userTs : List Int)
    (hmono : List.Pairwise (· ≤ ·) userTs) (i j : Nat) (hij : i < j)
    (aj : Int) (hj : userTs.get? j = some aj) (fallbackEnd t : Int)
    (hi : memberOfTurn userTs i fallbackEnd t = true)
    (hjm : memberOfTurn userTs j fallbackEnd t = true) :
    aj - 1000 ≤ t ∧ t < aj := by
  have hjlen : j < userTs.length := by
    rw [List.get?_eq_some] at hj
    exact hj.1
  unfold memberOfTurn at hjm
  rw [hj] at hjm
  have hlow := (turnMember_bounds hjm).1
  unfold memberOfTurn at hi
  cases hgi : userTs.get? i with
  | none => rw [hgi] at hi; cases hi
  | some ai =>
    rw [hgi] at hi
    have hup := (turnMember_bounds hi).2
    have hi1len : i + 1 < userTs.length := Nat.lt_of_le_of_lt hij hjlen
    obtain ⟨ai1, hai1⟩ : ∃ x, userTs.get? (i + 1) = some x :=
      ⟨userTs.get ⟨i + 1, hi1len⟩, List.get?_eq_get hi1len⟩
    rw [hai1] at hup
    simp only [Option.getD_some] at hup
    have hle : ai1 ≤ aj := by
      rcases Nat.lt_or_ge (i + 1) j with hlt | hge
      · exact pairwise_le_get? hmono hlt hai1 hj
      · have : i + 1 = j := Nat.le_antisymm hij (Nat.le_of_lt_succ (Nat.lt_succ_of_le hge))
        rw [this, hj] at hai1
        exact le_of_eq (Option.some.inj hai1).symm
    exact ⟨hlow, lt_of_lt_of_le hup hle⟩

/-- C2 witness. -/
theorem c2_shared_event_in_tolerance_window_witness :
    (10000 : Int) - 1000 ≤ 9500 ∧ (9500 : Int) < 10000 :=
  c2_shared_event_in_tolerance_window [0, 10000] (by decide) 0 1 (by decide) 10000
    (by decide) 1020000 9500 (by decide) (by decide)

/-- C3: the sanitizer is not idempotent.  On `"a, , ,b"` the comma-collapse
stage (`/,\s*,+/g → ','`) removes one redundant comma per pass, so a second
application changes the output again — the code contradicts the spec's
idempotence property. -/
theorem c3_strip_json_blocks_not_idempotent :
    stripJsonBlocks ("a, , ,b".toList) = "a, ,b".toList ∧
    stripJsonBlocks ("a, ,b".toList) = "a,b".toList ∧
    stripJsonBlocks (stripJsonBlocks ("a, , ,b".toList)) ≠ stripJsonBlocks ("a, , ,b".toList) := by
  decide

/-- C5 counterexample: normalizing a server snapshot that reports
`status = ready` while a question is still pending produces a session that
violates the invariant — so "normalization of a server snapshot preserves
both conjuncts", as claimed, is false at this input. -/
theorem c5_normalize_snapshot_counterexample :
    ¬ SessionInvariant (normalizeClarificationState 0 inconsistentSnapshot) := by decide

/-- C5 (amended): creation (locally or by the disabled service) establishes
both invariant conjuncts, and answering the head question / accepting
defaults (`advanceLocalClarification`) preserves them; normalization
establishes them only for snapshots that carry no explicit `status` and whose
auto-applied keys already appear in the resolved context — not for arbitrary
server snapshots. -/
theorem c5_invariant_operations :
    (∀ now q, SessionInvariant (createEmptyClarificationState now q)) ∧
    (∀ now sid q, SessionInvariant (createEmptySessionState now sid q)) ∧
    (∀ st queue active vals, SessionInvariant st →
      SessionInvariant (advanceLocalClarification st queue active vals).1) ∧
    (∀ now raw, raw.status = none →
      (∀ k, k ∈ keysOf (raw.auto_applied.getD []) →
        k ∈ keysOf (raw.resolved_context.getD [])) →
      SessionInvariant (normalizeClarificationState now raw)) := by
  refine ⟨?_, ?_, ?_, ?_⟩
  · intro now q
    constructor
    · simp [createEmptyClarificationState]
    · intro k hk
      simp [createEmptyClarificationState, keysOf] at hk
  · intro now sid q
    constructor
    · simp [createEmptySessionState]
    · intro k hk
      simp [createEmptySessionState, keysOf] at hk
  · intro st queue active vals hst
    constructor
    · simp only [advanceLocalClarification]
      cases hq : queue.drop 1 with
      | nil => simp
      | cons x xs => simp
    · intro k hk
      simp only [advanceLocalClarification] at hk ⊢
      exact mem_keysOf_setKey _ _ (hst.2 k hk)
  · intro now raw hst hkeys
    constructor
    · simp only [normalizeClarificationState, hst, Option.getD_none]
      cases hp : (match raw.pending with
        | some p => p
        | none => raw.suggestions.getD []) with
      | nil => simp [hp]
      | cons x xs => simp [hp]
    · intro k hk
      simp only [normalizeClarificationState] at hk ⊢
      exact hkeys k hk

/-- C5 witness. -/
theorem c5_invariant_operations_witness :
    SessionInvariant (advanceLocalClarification hoodieSession [sizeQuestion]
      sizeQuestion ["M"]).1 :=
  c5_invariant_operations.2.2.1 hoodieSession [sizeQuestion] sizeQuestion ["M"] (by decide)

/-- C6 counterexample: with a head question that has no `defaults_applied`
entries, `acceptDefaults` is not a no-op — pending, answers and resolved
context all change. -/
theorem c6_accept_defaults_not_noop_counterexample :
    sizeQuestion.defaults_applied = [] ∧
    (handleAcceptDefaultsLocal hoodieSession [sizeQuestion]).1.pending ≠
      hoodieSession.pending ∧
    (handleAcceptDefaultsLocal hoodieSession [sizeQuestion]).1.answers ≠
      hoodieSession.answers ∧
    (handleAcceptDefaultsLocal hoodieSession [sizeQuestion]).1.resolved_context ≠
      hoodieSession.resolved_context := by decide

/-- C6 (amended): `acceptDefaults` on a head question with no
`defaults_applied` entries still advances the session: the head leaves
`pending`, the answer list records the empty selection, and the resolved
context records the literal `"defaults accepted"`. -/
theorem c6_accept_defaults_advances (st : ClarificationSessionState)
    (q : ClarificationSuggestion) (rest : List ClarificationSuggestion)
    (hq : q.defaults_applied = []) :
    (handleAcceptDefaultsLocal st (q :: rest)).1.pending = rest ∧
    getKey (handleAcceptDefaultsLocal st (q :: rest)).1.answers q.question_id = some [] ∧
    getKey (handleAcceptDefaultsLocal st (q :: rest)).1.resolved_context q.question_id =
      some "defaults accepted" ∧
    (handleAcceptDefaultsLocal st (q :: rest)).1.status =
      (if 0 < rest.length then "pending" else "ready") := by
  simp only [handleAcceptDefaultsLocal, advanceLocalClarification, hq, List.map_nil,
    List.length_nil, List.drop_succ_cons, List.drop_zero, gt_iff_lt, lt_self_iff_false,
    if_false]
  exact ⟨trivial, getKey_setKey_self _ _ _, getKey_setKey_self _ _ _, trivial⟩

/-- C6 witness. -/
theorem c6_accept_defaults_advances_witness :
    (handleAcceptDefaultsLocal hoodieSession ([sizeQuestion])).1.pending = [] ∧
    getKey (handleAcceptDefaultsLocal hoodieSession [sizeQuestion]).1.answers
      sizeQuestion.question_id = some [] ∧
    getKey (handleAcceptDefaultsLocal hoodieSession [sizeQuestion]).1.resolved_context
      sizeQuestion.question_id = some "defaults accepted" ∧
    (handleAcceptDefaultsLocal hoodieSession [sizeQuestion]).1.status =
      (if 0 < ([] : List ClarificationSuggestion).length then "pending" else "ready") :=
  c6_accept_defaults_advances hoodieSession sizeQuestion [] (by decide)

/-- C9 counterexample: a run that processed one session-bearing record and
was then aborted has already overwritten the stored session id (`s1` became
`s2`), with neither `onError` nor `onComplete` invoked — the claim that an
aborted run never overwrites the session id is false at this input. -/
theorem c9_aborted_run_overwrites_counterexample :
    (runStream (some "s1") [sessionOnlyRecord]
      (.failure abortErrorName)).1.currentSessionId = some "s2" ∧
    (runStream (some "s1") [sessionOnlyRecord]
      (.failure abortErrorName)).2.erroredWith = none ∧
    (runStream (some "s1") [sessionOnlyRecord]
      (.failure abortErrorName)).2.completedWith = none ∧
    ("s2" : String) ≠ "s1" := by decide

/-- C9 (amended): the stored session id is written whenever a processed
record carries one — including mid-run — so a run (however it ends) that
processed no session-bearing record leaves the stored id unchanged, and
`abort()` itself never writes it. -/
theorem c9_session_write_only_on_session_records (sid0 : Option String)
    (records : List StreamEventData) (ending : RunEnding) (svc : ServiceState)
    (h : ∀ d ∈ records, truthyS d.session_id = false) :
    (runStream sid0 records ending).1.currentSessionId = sid0 ∧
    (abortService svc).currentSessionId = svc.currentSessionId := by
  constructor
  · have key := foldl_runStep_preserves_sid h
      ({ finalResponse := "", capturedSessionId := none, currentSessionId := sid0 }, [])
    cases ending with
    | endOfStream => exact key
    | failure n => exact key
  · rfl

/-- C9 witness. -/
theorem c9_session_write_only_on_session_records_witness :
    (runStream (some "s1") [noSessionRecord]
      (.failure abortErrorName)).1.currentSessionId = some "s1" :=
  (c9_session_write_only_on_session_records (some "s1") [noSessionRecord]
    (.failure abortErrorName) ⟨true, true, none⟩ (by decide)).1

/-- C10: with `CLARIFIERS_ENABLED = false`, both service entry points return
a locally built `ready` session with empty pending/answers/auto-applied/
resolved-context and make no network request, and every nonempty submitted
query immediately starts streaming with such an empty clarification state. -/
theorem c10_clarifiers_disabled_local_flow :
    (∀ now req, suggestClarifications now req =
      .localResult (createEmptySessionState now req.session_id req.user_query)) ∧
    (∀ now sid, respondClarifications now sid =
      .localResult (createEmptySessionState now sid none)) ∧
    (∀ now sid q, (createEmptySessionState now sid q).status = "ready" ∧
      (createEmptySessionState now sid q).pending = [] ∧
      (createEmptySessionState now sid q).answers = [] ∧
      (createEmptySessionState now sid q).auto_applied = [] ∧
      (createEmptySessionState now sid q).resolved_context = []) ∧
    (∀ now q, q ≠ "" →
      handleChatSubmitClarification now q =
        .startStreamingNow q (createEmptyClarificationState now q) ∧
      (createEmptyClarificationState now q).pending = [] ∧
      (createEmptyClarificationState now q).status = "ready" ∧
      (createEmptyClarificationState now q).auto_applied = [] ∧
      (createEmptyClarificationState now q).resolved_context = []) := by
  refine ⟨?_, ?_, ?_, ?_⟩
  · intro now req
    rfl
  · intro now sid
    rfl
  · intro now sid q
    exact ⟨rfl, rfl, rfl, rfl, rfl⟩
  · intro now q hq
    refine ⟨?_, rfl, rfl, rfl, rfl⟩
    simp [handleChatSubmitClarification, hq, CLARIFIERS_ENABLED]

/-- C10 witness. -/
theorem c10_clarifiers_disabled_local_flow_witness :
    handleChatSubmitClarification 5 "show q3 sales" =
      .startStreamingNow "show q3 sales" (createEmptyClarificationState 5 "show q3 sales") :=
  (c10_clarifiers_disabled_local_flow.2.2.2 5 "show q3 sales" (by decide)).1

/-! ## Chunk-boundary invariance lemmas (C8) -/

/-- `splitNl` never yields the empty list. -/
theorem splitNl_ne_nil (s : Str) : splitNl s ≠ [] := by
  induction s with
  | nil => simp [splitNl]
  | cons c rest ih =>
    unfold splitNl
    by_cases hc : c = '\n'
    · simp [hc]
    · simp only [if_neg hc]
      cases h : splitNl rest with
      | nil => simp
      | cons l ls => simp

/-- A newline-free string splits into the single segment that it is. -/
theorem splitNl_no_nl {s : Str} (h : '\n' ∉ s) : splitNl s = [s] := by
  induction s with
  | nil => rfl
  | cons c rest ih =>
    have hc : c ≠ '\n' := fun hcc => h (hcc ▸ List.mem_cons_self c rest)
    have hrest : '\n' ∉ rest := fun hm => h (List.mem_cons_of_mem c hm)
    unfold splitNl
    rw [if_neg hc, ih hrest]

/-- The trailing segment of a split never contains a newline. -/
theorem no_nl_getLastD_splitNl (s : Str) : '\n' ∉ (splitNl s).getLastD [] := by
  induction s with
  | nil => simp [splitNl]
  | cons c rest ih =>
    unfold splitNl
    by_cases hc : c = '\n'
    · rw [if_pos hc, List.getLastD_cons]
      cases h : splitNl rest with
      | nil => exact absurd h (splitNl_ne_nil rest)
      | cons l ls =>
        rw [List.getLastD_eq_getLast?] at ih ⊢
        rw [h] at ih
        exact ih
    · rw [if_neg hc]
      cases h : splitNl rest with
      | nil => exact absurd h (splitNl_ne_nil rest)
      | cons l ls =>
        cases hls : ls with
        | nil =>
          simp only [List.getLastD_cons, List.getLastD]
          rw [h, hls] at ih
          simp only [List.getLastD_cons, List.getLastD] at ih
          intro hm
          rcases List.mem_cons.mp hm with hm | hm
          · exact hc hm.symm
          · exact ih hm
        | cons l2 ls2 =>
          rw [List.getLastD_cons, List.getLastD_eq_getLast?]
          rw [h, hls] at ih
          rw [List.getLastD_eq_getLast?] at ih
          simpa using ih

/-- The defining equation of `splitNl` on a leading newline. -/
theorem splitNl_cons_nl (rest : Str) : splitNl ('\n' :: rest) = [] :: splitNl rest := by
  conv_lhs => unfold splitNl
  rw [if_pos rfl]

/-- The defining equation of `splitNl` on a leading ordinary character. -/
theorem splitNl_cons_ne {c : Char} (hc : c ≠ '\n') (rest : Str) :
    splitNl (c :: rest) = (c :: (splitNl rest).headD []) :: (splitNl rest).tail := by
  conv_lhs => unfold splitNl
  rw [if_neg hc]
  cases hs : splitNl rest with
  | nil => exact absurd hs (splitNl_ne_nil rest)
  | cons l ls => rfl

/-- `getLastD` of a nonempty list ignores its default. -/
theorem getLastD_irrel {α : Type} (x : α) (xs : List α) (a b : α) :
    (x :: xs).getLastD a = (x :: xs).getLastD b := by
  rw [List.getLastD_cons, List.getLastD_cons]

/-- Prepending a newline-free prefix only extends the first segment. -/
theorem splitNl_append_no_nl {buf : Str} (h : '\n' ∉ buf) (s : Str) :
    splitNl (buf ++ s) = (buf ++ (splitNl s).headD []) :: (splitNl s).tail := by
  induction buf with
  | nil =>
    simp only [List.nil_append]
    cases hs : splitNl s with
    | nil => exact absurd hs (splitNl_ne_nil s)
    | cons l ls => simp
  | cons c buf' ih =>
    have hc : c ≠ '\n' := fun hcc => h (hcc ▸ List.mem_cons_self c buf')
    have hbuf : '\n' ∉ buf' := fun hm => h (List.mem_cons_of_mem c hm)
    rw [List.cons_append, splitNl_cons_ne hc, ih hbuf]
    simp

/-- Feeding a chunk that starts with a newline flushes the buffer as a
complete line. -/
theorem feedChunk_cons_nl {ls : List Str} {buf : Str} (h : '\n' ∉ buf) (rest : Str) :
    feedChunk (ls, buf) ('\n' :: rest) = feedChunk (ls ++ [buf], []) rest := by
  unfold feedChunk
  simp only
  rw [splitNl_append_no_nl h ('\n' :: rest), splitNl_cons_nl rest, List.nil_append]
  simp only [List.headD_cons, List.append_nil, List.tail_cons]
  cases hs : splitNl rest with
  | nil => exact absurd hs (splitNl_ne_nil rest)
  | cons l rs =>
    simp only [Prod.mk.injEq]
    constructor
    · rw [List.dropLast_cons_of_ne_nil (by simp : (l :: rs) ≠ [])]
      simp [List.append_assoc]
    · rw [List.getLastD_cons]
      exact getLastD_irrel l rs buf []

/-- Feeding a chunk that starts with an ordinary character appends it to the
buffer. -/
theorem feedChunk_cons_ch {ls : List Str} {buf : Str} {c : Char} (rest : Str) :
    feedChunk (ls, buf) (c :: rest) = feedChunk (ls, buf ++ [c]) rest := by
  unfold feedChunk
  simp only
  rw [show buf ++ (c :: rest) = (buf ++ [c]) ++ rest by simp]

/-- The buffer left by a feed never contains a newline. -/
theorem no_nl_feedChunk_buf (st : List Str × Str) (c : Str) :
    '\n' ∉ (feedChunk st c).2 := by
  unfold feedChunk
  exact no_nl_getLastD_splitNl (st.2 ++ c)

/-- Feeding two chunks in sequence equals feeding their concatenation: the
trailing partial line buffered by the first feed is completed by the
second. -/
theorem feedChunk_append (a : Str) : ∀ (st : List Str × Str), '\n' ∉ st.2 →
    ∀ b, feedChunk (feedChunk st a) b = feedChunk st (a ++ b) := by
  induction a with
  | nil =>
    intro st h b
    obtain ⟨ls, buf⟩ := st
    have : feedChunk (ls, buf) [] = (ls, buf) := by
      unfold feedChunk
      rw [List.append_nil, splitNl_no_nl h]
      simp
    rw [this, List.nil_append]
  | cons c a' ih =>
    intro st h b
    obtain ⟨ls, buf⟩ := st
    by_cases hc : c = '\n'
    · subst hc
      rw [feedChunk_cons_nl h, ih (ls ++ [buf], []) (by simp) b,
        List.cons_append, feedChunk_cons_nl h]
    · have hbuf : '\n' ∉ buf ++ [c] := by
        intro hm
        rcases List.mem_append.mp hm with hm | hm
        · exact h hm
        · exact hc (List.mem_singleton.mp hm).symm
      rw [feedChunk_cons_ch, ih (ls, buf ++ [c]) hbuf b, List.cons_append,
        feedChunk_cons_ch]

/-- Folding the feed over a nonempty chunk list equals one feed of the
concatenated text. -/
theorem foldl_feedChunk_flatten :
    ∀ (cs : List Str) (a : Str) (st : List Str × Str), '\n' ∉ st.2 →
      List.foldl feedChunk st (a :: cs) = feedChunk st (a ++ cs.flatten) := by
  intro cs
  induction cs with
  | nil =>
    intro a st _
    simp [List.foldl]
  | cons b cs ih =>
    intro a st h
    show List.foldl feedChunk (feedChunk st a) (b :: cs) = _
    rw [ih b (feedChunk st a) (no_nl_feedChunk_buf st a),
      feedChunk_append a st h (b ++ cs.flatten)]
    simp [List.append_assoc]

/-- C8: the stream parser is chunk-boundary invariant — incrementally
splitting any chunking of a text stream on line boundaries, buffering the
trailing partial line, and parsing each complete `data:` line yields exactly
the record sequence of parsing the whole stream as one chunk. -/
theorem c8_chunk_boundary_invariance {α : Type} (parseData : Str → Option α)
    (chunks : List Str) :
    parsedRecords parseData chunks = parsedRecords parseData [chunks.flatten] := by
  unfold parsedRecords completeLines feedChunks
  cases chunks with
  | nil =>
    show (List.foldl feedChunk ([], []) []).1.filterMap _ =
      (List.foldl feedChunk ([], []) [[].flatten]).1.filterMap _
    have : feedChunk (([] : List Str), ([] : Str)) [] = ([], []) := by
      unfold feedChunk
      simp [splitNl]
    simp [List.foldl, this]
  | cons a cs =>
    rw [foldl_feedChunk_flatten cs a ([], []) (by simp)]
    show _ = (List.foldl feedChunk ([], []) [(a :: cs).flatten]).1.filterMap _
    rw [show (a :: cs).flatten = a ++ cs.flatten from rfl]
    rfl

/-! ## Presenter ordering lemmas (C4, C7) -/

/-- Inserting an element that dominates the accumulator appends it. -/
theorem insertAfterEq_append_of_le {x : NormalizedTurnEvent}
    {acc : List NormalizedTurnEvent} (h : ∀ y ∈ acc, nteTs y ≤ nteTs x) :
    insertAfterEq x acc = acc ++ [x] := by
  induction acc with
  | nil => rfl
  | cons y ys ih =>
    unfold insertAfterEq
    rw [if_pos (h y (List.mem_cons_self y ys))]
    rw [ih (fun z hz => h z (List.mem_cons_of_mem y hz))]
    rfl

/-- Membership through `insertAfterEq`. -/
theorem mem_insertAfterEq {y x : NormalizedTurnEvent} {l : List NormalizedTurnEvent} :
    y ∈ insertAfterEq x l ↔ y = x ∨ y ∈ l := by
  induction l with
  | nil => simp [insertAfterEq]
  | cons z zs ih =>
    unfold insertAfterEq
    by_cases hz : nteTs z ≤ nteTs x
    · rw [if_pos hz]
      simp only [List.mem_cons, ih]
      tauto
    · rw [if_neg hz]
      simp [List.mem_cons]

/-- `insertAfterEq` preserves sortedness by timestamp. -/
theorem insertAfterEq_pairwise {x : NormalizedTurnEvent} {l : List NormalizedTurnEvent}
    (hl : List.Pairwise (fun a b => nteTs a ≤ nteTs b) l) :
    List.Pairwise (fun a b => nteTs a ≤ nteTs b) (insertAfterEq x l) := by
  induction l with
  | nil => simp [insertAfterEq]
  | cons z zs ih =>
    rw [List.pairwise_cons] at hl
    unfold insertAfterEq
    by_cases hz : nteTs z ≤ nteTs x
    · rw [if_pos hz]
      rw [List.pairwise_cons]
      refine ⟨?_, ih hl.2⟩
      intro y hy
      rcases mem_insertAfterEq.mp hy with hy | hy
      · rw [hy]; exact hz
      · exact hl.1 y hy
    · rw [if_neg hz]
      have hxz : nteTs x ≤ nteTs z := le_of_not_le hz
      rw [List.pairwise_cons]
      refine ⟨?_, List.pairwise_cons.mpr hl⟩
      intro y hy
      rcases List.mem_cons.mp hy with hy | hy
      · rw [hy]; exact hxz
      · exact le_trans hxz (hl.1 y hy)

/-- Folding inserts of a dominating sorted suffix just appends it. -/
theorem foldl_insert_sorted :
    ∀ (xs acc : List NormalizedTurnEvent),
      List.Pairwise (fun a b => nteTs a ≤ nteTs b) acc →
      List.Pairwise (fun a b => nteTs a ≤ nteTs b) xs →
      (∀ a ∈ acc, ∀ x ∈ xs, nteTs a ≤ nteTs x) →
      List.foldl (fun acc x => insertAfterEq x acc) acc xs = acc ++ xs := by
  intro xs
  induction xs with
  | nil => intro acc _ _ _; simp
  | cons x xs ih =>
    intro acc hacc hxs hdom
    rw [List.pairwise_cons] at hxs
    rw [List.foldl_cons]
    rw [insertAfterEq_append_of_le (fun y hy => hdom y hy x (List.mem_cons_self x xs))]
    rw [ih (acc ++ [x]) ?_ hxs.2 ?_]
    · simp
    · rw [List.pairwise_append]
      refine ⟨hacc, List.pairwise_singleton _ _, ?_⟩
      intro a ha b hb
      rw [List.mem_singleton.mp hb]
      exact hdom a ha x (List.mem_cons_self x xs)
    · intro a ha y hy
      rcases List.mem_append.mp ha with ha | ha
      · exact hdom a ha y (List.mem_cons_of_mem x hy)
      · rw [List.mem_singleton.mp ha]
        exact hxs.1 y hy

/-- Defining equation: merging into the empty left list. -/
theorem mergeByTs_nil_left (r : List NormalizedTurnEvent) : mergeByTs [] r = r := by
  simp [mergeByTs]

/-- Defining equation: merging the empty right list. -/
theorem mergeByTs_nil_right (l : List NormalizedTurnEvent) : mergeByTs l [] = l := by
  cases l with
  | nil => simp [mergeByTs]
  | cons a l' => simp [mergeByTs]

/-- Defining equation: the comparison step. -/
theorem mergeByTs_cons_cons (a : NormalizedTurnEvent) (l : List NormalizedTurnEvent)
    (b : NormalizedTurnEvent) (r : List NormalizedTurnEvent) :
    mergeByTs (a :: l) (b :: r) =
      if nteTs a ≤ nteTs b then a :: mergeByTs l (b :: r)
      else b :: mergeByTs (a :: l) r := by
  rw [mergeByTs]

/-- `insertAfterEq` is merging with a singleton. -/
theorem insertAfterEq_eq_merge_single (x : NormalizedTurnEvent) :
    ∀ (l : List NormalizedTurnEvent), insertAfterEq x l = mergeByTs l [x] := by
  intro l
  induction l with
  | nil => rw [mergeByTs_nil_left]; rfl
  | cons a l' ih =>
    rw [mergeByTs_cons_cons]
    unfold insertAfterEq
    by_cases ha : nteTs a ≤ nteTs x
    · rw [if_pos ha, if_pos ha, ih]
    · rw [if_neg ha, if_neg ha, mergeByTs_nil_right]

/-- Merging a dominated singleton first, then the rest, equals merging the
whole right-hand list at once. -/
theorem mergeByTs_single_assoc {x : NormalizedTurnEvent} :
    ∀ (A T : List NormalizedTurnEvent), (∀ u ∈ T, nteTs x ≤ nteTs u) →
      mergeByTs (mergeByTs A [x]) T = mergeByTs A (x :: T) := by
  intro A
  induction A with
  | nil =>
    intro T hT
    rw [mergeByTs_nil_left, mergeByTs_nil_left]
    cases T with
    | nil => rw [mergeByTs_nil_right]
    | cons u U =>
      rw [mergeByTs_cons_cons, if_pos (hT u (List.mem_cons_self u U)), mergeByTs_nil_left]
  | cons a A' ih =>
    intro T hT
    by_cases ha : nteTs a ≤ nteTs x
    · have h1 : mergeByTs (a :: A') [x] = a :: mergeByTs A' [x] := by
        rw [mergeByTs_cons_cons, if_pos ha]
      rw [h1]
      cases T with
      | nil =>
        rw [mergeByTs_nil_right]
        exact h1.symm
      | cons u U =>
        have hau : nteTs a ≤ nteTs u :=
          le_trans ha (hT u (List.mem_cons_self u U))
        rw [mergeByTs_cons_cons, if_pos hau, ih (u :: U) hT,
          mergeByTs_cons_cons, if_pos ha]
    · have h1 : mergeByTs (a :: A') [x] = x :: a :: A' := by
        rw [mergeByTs_cons_cons, if_neg ha, mergeByTs_nil_right]
      rw [h1]
      have h3 : mergeByTs (a :: A') (x :: T) = x :: mergeByTs (a :: A') T := by
        rw [mergeByTs_cons_cons, if_neg ha]
      rw [h3]
      cases T with
      | nil => rw [mergeByTs_nil_right, mergeByTs_nil_right]
      | cons u U =>
        rw [mergeByTs_cons_cons, if_pos (hT u (List.mem_cons_self u U))]

/-- Folding stable inserts of a sorted list into a sorted accumulator is the
timestamp merge. -/
theorem foldl_insert_eq_merge :
    ∀ (T A : List NormalizedTurnEvent),
      List.Pairwise (fun a b => nteTs a ≤ nteTs b) A →
      List.Pairwise (fun a b => nteTs a ≤ nteTs b) T →
      List.foldl (fun acc x => insertAfterEq x acc) A T = mergeByTs A T := by
  intro T
  induction T with
  | nil => intro A _ _; rw [mergeByTs_nil_right]; rfl
  | cons t T' ih =>
    intro A hA hT
    rw [List.pairwise_cons] at hT
    rw [List.foldl_cons, ih (insertAfterEq t A) (insertAfterEq_pairwise hA) hT.2,
      insertAfterEq_eq_merge_single, mergeByTs_single_assoc A T' hT.1]

/-- Events of collected items come from the walked list. -/
theorem collect_mem_event (sh : Bool) (hid : Option String) :
    ∀ (evs : List SEvent) (seen : List Str) (x : NormalizedTurnEvent),
      (x ∈ (collectNormalized sh hid evs seen).1 ∨
        x ∈ (collectNormalized sh hid evs seen).2) → x.event ∈ evs := by
  intro evs
  induction evs with
  | nil => intro seen x hx; simp [collectNormalized] at hx
  | cons e rest ih =>
    intro seen x hx
    unfold collectNormalized at hx
    dsimp only at hx
    split at hx
    · rcases hc : collectNormalized sh hid rest seen with ⟨a, t⟩
      rw [hc] at hx
      simp only [List.mem_cons] at hx
      rcases hx with (hx | hx) | hx
      · rw [hx]; exact List.mem_cons_self e rest
      · exact List.mem_cons_of_mem e (ih seen x (Or.inl (by rw [hc]; exact hx)))
      · exact List.mem_cons_of_mem e (ih seen x (Or.inr (by rw [hc]; exact hx)))
    · split at hx
      · split at hx
        · rcases hc : collectNormalized sh hid rest
              (lowerStr (wsTrim (extractTodoContent e)) :: seen) with ⟨a, t⟩
          rw [hc] at hx
          simp only [List.mem_cons] at hx
          rcases hx with hx | hx | hx
          · exact List.mem_cons_of_mem e (ih _ x (Or.inl (by rw [hc]; exact hx)))
          · rw [hx]; exact List.mem_cons_self e rest
          · exact List.mem_cons_of_mem e (ih _ x (Or.inr (by rw [hc]; exact hx)))
        · exact List.mem_cons_of_mem e (ih seen x hx)
      · exact List.mem_cons_of_mem e (ih seen x hx)

/-- Collected assistant items are sorted when the turn's events are; likewise
for collected todo items. -/
theorem collect_pairwise (sh : Bool) (hid : Option String) :
    ∀ (evs : List SEvent) (seen : List Str),
      List.Pairwise (fun a b => a.timestamp ≤ b.timestamp) evs →
      List.Pairwise (fun a b => nteTs a ≤ nteTs b) (collectNormalized sh hid evs seen).1 ∧
      List.Pairwise (fun a b => nteTs a ≤ nteTs b) (collectNormalized sh hid evs seen).2 := by
  intro evs
  induction evs with
  | nil => intro seen _; simp [collectNormalized]
  | cons e rest ih =>
    intro seen hp
    rw [List.pairwise_cons] at hp
    unfold collectNormalized
    dsimp only
    split
    · rcases hc : collectNormalized sh hid rest seen with ⟨a, t⟩
      have hih := ih seen hp.2
      rw [hc] at hih
      refine ⟨?_, hih.2⟩
      rw [List.pairwise_cons]
      refine ⟨?_, hih.1⟩
      intro y hy
      exact hp.1 y.event (collect_mem_event sh hid rest seen y (Or.inl (by rw [hc]; exact hy)))
    · split
      · split
        · rcases hc : collectNormalized sh hid rest
              (lowerStr (wsTrim (extractTodoContent e)) :: seen) with ⟨a, t⟩
          have hih := ih (lowerStr (wsTrim (extractTodoContent e)) :: seen) hp.2
          rw [hc] at hih
          refine ⟨hih.1, ?_⟩
          rw [List.pairwise_cons]
          refine ⟨?_, hih.2⟩
          intro y hy
          exact hp.1 y.event (collect_mem_event sh hid rest
            (lowerStr (wsTrim (extractTodoContent e)) :: seen) y
            (Or.inr (by rw [hc]; exact hy)))
        · exact ih seen hp.2
      · exact ih seen hp.2

/-- C4 counterexample: with todos and narration interleaved in time, the
rendered items are not "all non-todo narration first, then todos" — the
`.sort` by timestamp interleaves them — so the claimed ordering is false at
this input. -/
theorem c4_ordering_counterexample :
    normalizedEvents false none sampleTurn ≠ claimOrderedItems false none sampleTurn ∧
    (normalizedEvents false none sampleTurn).map (fun x => x.event.id) =
      ["a1", "t1", "t2", "a2"] ∧
    (claimOrderedItems false none sampleTurn).map (fun x => x.event.id) =
      ["a1", "a2", "t1", "t2"] := by decide

/-- C4 (amended): for a turn whose events are in non-decreasing timestamp
order, the presenter's item list is the timestamp-ordered merge of the
narration items and the todo items (narration before todos on equal
timestamps), with the first non-todo item then promoted to the primary
position. -/
theorem c4_items_merge_by_timestamp (sh : Bool) (hid : Option String)
    (turn : List SEvent)
    (hsorted : List.Pairwise (fun a b => a.timestamp ≤ b.timestamp) turn) :
    normalizedEvents sh hid turn =
      promoteFirstNonTodo (mergeByTs (collectNormalized sh hid turn []).1
        (collectNormalized sh hid turn []).2) := by
  obtain ⟨ha, ht⟩ := collect_pairwise sh hid turn [] hsorted
  unfold normalizedEvents
  rcases hc : collectNormalized sh hid turn [] with ⟨a, t⟩
  rw [hc] at ha ht
  simp only
  congr 1
  unfold jsStableSortByTs
  rw [List.foldl_append,
    foldl_insert_sorted a [] List.Pairwise.nil ha (by intro x hx; simp at hx),
    List.nil_append]
  exact foldl_insert_eq_merge t a ha ht

/-- C4 witness. -/
theorem c4_items_merge_by_timestamp_witness :
    normalizedEvents false none sampleTurn =
      promoteFirstNonTodo (mergeByTs (collectNormalized false none sampleTurn []).1
        (collectNormalized false none sampleTurn []).2) :=
  c4_items_merge_by_timestamp false none sampleTurn (by decide)

/-- Membership is invariant under the stable sort. -/
theorem mem_jsStableSortByTs {y : NormalizedTurnEvent} :
    ∀ {l : List NormalizedTurnEvent}, y ∈ jsStableSortByTs l ↔ y ∈ l := by
  have key : ∀ (l acc : List NormalizedTurnEvent),
      y ∈ List.foldl (fun acc x => insertAfterEq x acc) acc l ↔ y ∈ acc ∨ y ∈ l := by
    intro l
    induction l with
    | nil => intro acc; simp
    | cons x xs ih =>
      intro acc
      rw [List.foldl_cons, ih (insertAfterEq x acc)]
      rw [mem_insertAfterEq]
      simp only [List.mem_cons]
      tauto
  intro l
  rw [jsStableSortByTs, key l []]
  simp

/-- Promotion does not add items. -/
theorem mem_promoteFirstNonTodo {y : NormalizedTurnEvent}
    {l : List NormalizedTurnEvent} (h : y ∈ promoteFirstNonTodo l) : y ∈ l := by
  unfold promoteFirstNonTodo at h
  split at h
  · exact h
  · exact h
  · split at h
    · exact h
    · rename_i i x hget
      rcases List.mem_cons.mp h with hy | hy
      · rw [hy]
        exact List.get?_mem hget
      · rcases List.mem_append.mp hy with hy | hy
        · exact List.take_subset _ _ hy
        · exact List.drop_subset _ _ hy

/-- Under suppression, no collected assistant item carries the hidden id. -/
theorem collect_fst_safe (h : String) :
    ∀ (evs : List SEvent) (seen : List Str) (x : NormalizedTurnEvent),
      x ∈ (collectNormalized true (some h) evs seen).1 →
      x.isTodo = false ∧ x.event.id ≠ h := by
  intro evs
  induction evs with
  | nil => intro seen x hx; simp [collectNormalized] at hx
  | cons e rest ih =>
    intro seen x hx
    unfold collectNormalized at hx
    dsimp only at hx
    split at hx
    · rename_i hcond
      rcases hc : collectNormalized true (some h) rest seen with ⟨a, t⟩
      rw [hc] at hx
      rcases List.mem_cons.mp hx with hx | hx
      · refine ⟨by rw [hx], ?_⟩
        rw [hx]
        intro hid
        exact hcond.2.2.2 ⟨rfl, by rw [hid]⟩
      · exact ih seen x (by rw [hc]; exact hx)
    · split at hx
      · split at hx
        · rcases hc : collectNormalized true (some h) rest
              (lowerStr (wsTrim (extractTodoContent e)) :: seen) with ⟨a, t⟩
          rw [hc] at hx
          exact ih _ x (by rw [hc]; exact hx)
        · exact ih seen x hx
      · exact ih seen x hx

/-- Collected todo items are todo items. -/
theorem collect_snd_is_todo (sh : Bool) (hid : Option String) :
    ∀ (evs : List SEvent) (seen : List Str) (x : NormalizedTurnEvent),
      x ∈ (collectNormalized sh hid evs seen).2 → x.isTodo = true := by
  intro evs
  induction evs with
  | nil => intro seen x hx; simp [collectNormalized] at hx
  | cons e rest ih =>
    intro seen x hx
    unfold collectNormalized at hx
    dsimp only at hx
    split at hx
    · rcases hc : collectNormalized sh hid rest seen with ⟨a, t⟩
      rw [hc] at hx
      exact ih seen x (by rw [hc]; exact hx)
    · split at hx
      · split at hx
        · rcases hc : collectNormalized sh hid rest
              (lowerStr (wsTrim (extractTodoContent e)) :: seen) with ⟨a, t⟩
          rw [hc] at hx
          rcases List.mem_cons.mp hx with hx | hx
          · rw [hx]
          · exact ih _ x (by rw [hc]; exact hx)
        · exact ih seen x hx
      · exact ih seen x hx

/-- C7 counterexample: in a completed prior turn (the first of two turns),
the assistant narration immediately preceding the turn's `final_response`
(event `a1`) still appears in the rendered subtask list — suppression only
applies to the current turn, so the claim is false at this input. -/
theorem c7_prior_turn_counterexample :
    (turnEventsFor sampleMsgs 0 2000000 sampleEvents).any
      (fun e => decide (e.type = EvType.finalResponse)) = true ∧
    assistantMessageToHideId (turnEventsFor sampleMsgs 0 2000000 sampleEvents) =
      some "a1" ∧
    (renderTurn sampleMsgs sampleEvents 2000000 0).map
      (fun r => (renderedSubtasks r).map (fun x => x.event.id)) = some ["a1"] := by
  decide

/-- C7 (amended): suppression holds for the current turn only — when the
final-predecessor id is hidden (`shouldHideLastAssistant` truthy), no
non-todo item of the turn's normalized list carries that id, so the hidden
narration appears neither as primary nor as subtask. -/
theorem c7_current_turn_suppression (turn : List SEvent) (h : String)
    (x : NormalizedTurnEvent) (hx : x ∈ normalizedEvents true (some h) turn)
    (hnt : x.isTodo = false) : x.event.id ≠ h := by
  unfold normalizedEvents at hx
  rcases hc : collectNormalized true (some h) turn [] with ⟨a, t⟩
  rw [hc] at hx
  simp only at hx
  have hx' : x ∈ a ++ t := mem_jsStableSortByTs.mp (mem_promoteFirstNonTodo hx)
  rcases List.mem_append.mp hx' with hxa | hxt
  · exact (collect_fst_safe h turn [] x (hc ▸ hxa)).2
  · rw [collect_snd_is_todo true (some h) turn [] x (hc ▸ hxt)] at hnt
    cases hnt

/-- C7 witness. -/
theorem c7_current_turn_suppression_witness :
    suppressItem.event.id ≠ "hidden" :=
  c7_current_turn_suppression suppressTurn "hidden" suppressItem (by decide) (by decide)

end GPC
